import Mathlib

/-!
Verification of the PR-branch resolver (`pullRequestGitHelper.ts`).

The development shallowly embeds the resolver's pure data and its
orchestration workflows.  The version-control engine (`Repository`), the
clone-identity type (`Protocol`) and the pull-request descriptor
(`IPullRequestModel`) are external collaborators of the resolver; their
behavior is modelled from the spec's interface contracts, while every
resolver function is translated directly from the source.
-/

/-- One decimal digit rendered as a character. -/
def digitChar : Nat → Char
  | 0 => '0'
  | 1 => '1'
  | 2 => '2'
  | 3 => '3'
  | 4 => '4'
  | 5 => '5'
  | 6 => '6'
  | 7 => '7'
  | 8 => '8'
  | _ => '9'

/-- Decimal digits of `n`, most significant first, prepended to `acc`.  The
first argument is fuel bounding the digit count; every use supplies fuel of
at least `n`, which always suffices. -/
def natToDigitsGo : Nat → Nat → List Char → List Char
  | 0, _, acc => acc
  | fuel + 1, n, acc =>
    if n = 0 then acc else natToDigitsGo fuel (n / 10) (digitChar (n % 10) :: acc)

/-- Decimal rendering of a natural number, as JavaScript string conversion
produces for a nonnegative integer. -/
def natToString (n : Nat) : String :=
  if n = 0 then "0" else String.mk (natToDigitsGo n n [])

/-- Result of JavaScript numeric conversion: either a number or NaN. -/
inductive JSNumber where
  | nan : JSNumber
  | val : Nat → JSNumber
deriving DecidableEq, Repr

/-- Character is one of `0`–`9`. -/
def isDigitChar (c : Char) : Bool :=
  48 ≤ c.toNat && c.toNat ≤ 57

/-- Value of a left-to-right decimal digit fold started at `a`. -/
def valFrom (a : Nat) (l : List Char) : Nat :=
  l.foldl (fun x c => x * 10 + (c.toNat - 48)) a

/-- Model of JavaScript `Number(string)` restricted to the shapes this
development evaluates it on: the empty string converts to `0`, a string of
decimal digits converts to its value, and any other string is NaN. -/
def jsNumberOfString (s : String) : JSNumber :=
  if s.data.isEmpty then .val 0
  else if s.data.all isDigitChar then .val (valFrom 0 s.data)
  else .nan

/-- Splits a character list at the LAST occurrence of `ch`, returning the
parts strictly before and strictly after it.  This is how a greedy leading
`(.*)` group distributes a string over a trailing literal. -/
def splitLastCh (ch : Char) : List Char → Option (List Char × List Char)
  | [] => none
  | c :: cs =>
    match splitLastCh ch cs with
    | some (b, a) => some (c :: b, a)
    | none => if c = ch then some ([], cs) else none

/-- Modelled from the spec: the clone-identity value type owned by the
host-integration layer, carrying an owner, a repository name and the
normalized URL used for identity comparison. -/
structure Protocol where
  owner : String
  repositoryName : String
  normalizedUrl : String
deriving DecidableEq, Repr

/-- Modelled from the spec: clone-identity equality (case-insensitive host,
protocol-insensitive) abstracted as equality of the normalized identities. -/
def protocolEquals (p q : Protocol) : Bool :=
  p.normalizedUrl == q.normalizedUrl

/-- Modelled from the spec: `normalizeUri().toString()` of a clone identity. -/
def normalizeUriToString (p : Protocol) : String :=
  p.normalizedUrl

/-- Modelled from the spec: `new Protocol(url)` on a URL string that is
already normalized, recovering only the identity used for comparison. -/
def protocolOfUrl (url : String) : Protocol :=
  ⟨"", "", url⟩

/-- Authoring user of a pull request. -/
structure Account where
  login : String
deriving DecidableEq, Repr

/-- One side (head or base) of a pull request. -/
structure PRSideRef where
  ref : String
  sha : String
  repositoryCloneUrl : Protocol
deriving DecidableEq, Repr

/-- Modelled from the spec: the read-only pull-request descriptor fields the
resolver consumes. -/
structure IPullRequestModel where
  prNumber : Nat
  author : Account
  head : PRSideRef
  base : PRSideRef
deriving DecidableEq, Repr

/-- Marker config key suffix for tool-managed remotes. -/
def PullRequestRemoteMetadataKey : String := "github-pr-remote"

/-- Config key suffix for the branch/PR association. -/
def PullRequestMetadataKey : String := "github-pr-owner-number"

/-- Persisted identity of a pull request (decoded form). -/
structure PullRequestMetadata where
  owner : String
  repositoryName : String
  prNumber : JSNumber
deriving DecidableEq, Repr

/-- Function `buildPullRequestMetadata`: serialize the PR's base identity. -/
def buildPullRequestMetadata (pr : IPullRequestModel) : String :=
  pr.base.repositoryCloneUrl.owner ++ "#" ++ pr.base.repositoryCloneUrl.repositoryName
    ++ "#" ++ natToString pr.prNumber

/-- Function `parsePullRequestMetadata`: a falsy (absent or empty) value yields no
result; otherwise the value is matched against `(.*)#(.*)#(.*)` with greedy
groups, so the split happens at the last two `#` characters. -/
def parsePullRequestMetadata (value : Option String) : Option PullRequestMetadata :=
  match value with
  | none => none
  | some s =>
    if s.data = [] then none
    else
      match splitLastCh '#' s.data with
      | none => none
      | some (rest, g3) =>
        match splitLastCh '#' rest with
        | none => none
        | some (g1, g2) =>
          some ⟨String.mk g1, String.mk g2, jsNumberOfString (String.mk g3)⟩

lemma mk_data (s : String) : String.mk s.data = s := rfl

lemma natToDigitsGo_acc (fuel : Nat) :
    ∀ n acc, natToDigitsGo fuel n acc = natToDigitsGo fuel n [] ++ acc := by
  induction fuel with
  | zero => intro n acc; rfl
  | succ fuel ih =>
    intro n acc
    by_cases hn : n = 0
    · simp [natToDigitsGo, hn]
    · rw [natToDigitsGo, if_neg hn, natToDigitsGo, if_neg hn,
        ih (n / 10) (digitChar (n % 10) :: acc), ih (n / 10) (digitChar (n % 10) :: [])]
      simp

lemma digitChar_toNat {r : Nat} (h : r < 10) : (digitChar r).toNat = 48 + r := by
  interval_cases r <;> rfl

lemma isDigitChar_digitChar {r : Nat} (h : r < 10) : isDigitChar (digitChar r) = true := by
  interval_cases r <;> rfl

lemma natToDigitsGo_digits (fuel : Nat) :
    ∀ n, ∀ c ∈ natToDigitsGo fuel n [], isDigitChar c = true := by
  induction fuel with
  | zero => intro n c hc; cases hc
  | succ fuel ih =>
    intro n c hc
    by_cases hn : n = 0
    · rw [natToDigitsGo, if_pos hn] at hc
      cases hc
    · rw [natToDigitsGo, if_neg hn, natToDigitsGo_acc] at hc
      rcases List.mem_append.1 hc with h1 | h1
      · exact ih _ c h1
      · rcases List.mem_singleton.1 h1 with rfl
        exact isDigitChar_digitChar (Nat.mod_lt _ (by omega))

lemma valFrom_append (a : Nat) (xs ys : List Char) :
    valFrom a (xs ++ ys) = valFrom (valFrom a xs) ys := by
  simp [valFrom, List.foldl_append]

lemma natToDigitsGo_val (fuel : Nat) :
    ∀ n, n ≤ fuel →
      ∀ a, valFrom a (natToDigitsGo fuel n []) = a * 10 ^ (natToDigitsGo fuel n []).length + n := by
  induction fuel with
  | zero =>
    intro n hn a
    have : n = 0 := by omega
    subst this
    simp [natToDigitsGo, valFrom]
  | succ fuel ih =>
    intro n hn a
    by_cases h0 : n = 0
    · subst h0; simp [natToDigitsGo, valFrom]
    · have hq : n / 10 ≤ fuel := by
        have := Nat.div_lt_self (Nat.pos_of_ne_zero h0) (show 1 < 10 by omega)
        omega
      have hmod : n % 10 < 10 := Nat.mod_lt _ (by omega)
      rw [natToDigitsGo, if_neg h0, natToDigitsGo_acc]
      rw [valFrom_append, ih _ hq]
      have hdig : valFrom (a * 10 ^ (natToDigitsGo fuel (n / 10) []).length + n / 10)
          [digitChar (n % 10)]
          = (a * 10 ^ (natToDigitsGo fuel (n / 10) []).length + n / 10) * 10 + n % 10 := by
        simp [valFrom, List.foldl, digitChar_toNat hmod]
      rw [hdig]
      have hdm : 10 * (n / 10) + n % 10 = n := Nat.div_add_mod n 10
      simp only [List.length_append, List.length_singleton]
      rw [pow_succ]
      ring_nf
      omega

lemma natToDigitsGo_ne_nil {n : Nat} (h : n ≠ 0) : natToDigitsGo n n [] ≠ [] := by
  intro hnil
  have := natToDigitsGo_val n n (le_refl n) 0
  rw [hnil] at this
  simp [valFrom] at this
  omega

lemma jsNumber_natToString (n : Nat) : jsNumberOfString (natToString n) = .val n := by
  by_cases h : n = 0
  · subst h; rfl
  · have hne := natToDigitsGo_ne_nil h
    have hall : (natToDigitsGo n n []).all isDigitChar = true :=
      List.all_eq_true.2 (fun c hc => natToDigitsGo_digits n n c hc)
    have hval : valFrom 0 (natToDigitsGo n n []) = n := by
      have := natToDigitsGo_val n n (le_refl n) 0
      simpa using this
    simp only [natToString, if_neg h, jsNumberOfString]
    rw [if_neg (by simpa [List.isEmpty_iff] using hne)]
    rw [if_pos hall, hval]

lemma natToString_inj {a b : Nat} (h : natToString a = natToString b) : a = b := by
  have := congrArg jsNumberOfString h
  rw [jsNumber_natToString, jsNumber_natToString] at this
  exact JSNumber.val.inj this

lemma hash_not_mem_natToString (n : Nat) : '#' ∉ (natToString n).data := by
  by_cases h : n = 0
  · subst h; decide
  · intro hmem
    simp only [natToString, if_neg h] at hmem
    have := natToDigitsGo_digits n n '#' hmem
    simp [isDigitChar] at this

lemma splitLastCh_eq_none {ch : Char} {cs : List Char} :
    splitLastCh ch cs = none ↔ ch ∉ cs := by
  induction cs with
  | nil => simp [splitLastCh]
  | cons c cs ih =>
    rw [splitLastCh]
    rcases hs : splitLastCh ch cs with _ | ⟨b, a⟩
    · have hnm : ch ∉ cs := ih.1 hs
      by_cases hc : c = ch
      · simp [hc]
      · rw [if_neg hc]
        constructor
        · intro _ hm
          rcases List.mem_cons.1 hm with rfl | hm'
          · exact hc rfl
          · exact hnm hm'
        · intro _
          rfl
    · have hm : ch ∈ cs := by
        by_contra hn
        rw [ih.2 hn] at hs
        cases hs
      simp [hm]

lemma splitLastCh_append {ch : Char} (as : List Char) {bs : List Char} (h : ch ∉ bs) :
    splitLastCh ch (as ++ ch :: bs) = some (as, bs) := by
  induction as with
  | nil =>
    rw [List.nil_append, splitLastCh, splitLastCh_eq_none.2 h]
    simp
  | cons a as ih =>
    rw [List.cons_append, splitLastCh, ih]

lemma splitLastCh_eq_some {ch : Char} {cs b a : List Char}
    (h : splitLastCh ch cs = some (b, a)) : cs = b ++ ch :: a ∧ ch ∉ a := by
  induction cs generalizing b a with
  | nil => cases h
  | cons c cs ih =>
    rw [splitLastCh] at h
    rcases hs : splitLastCh ch cs with _ | ⟨b', a'⟩
    · rw [hs] at h
      by_cases hc : c = ch
      · rw [if_pos hc] at h
        cases h
        subst hc
        exact ⟨rfl, splitLastCh_eq_none.1 hs⟩
      · rw [if_neg hc] at h
        cases h
    · rw [hs] at h
      cases h
      obtain ⟨h1, h2⟩ := ih hs
      exact ⟨by rw [h1]; rfl, h2⟩

lemma data_append (s t : String) : (s ++ t).data = s.data ++ t.data :=
  String.data_append s t

/-- C3: for every pull request whose base owner and base repository name
contain no `#`, decoding the encoded metadata recovers the base owner, the
base repository name and the PR number. -/
theorem metadata_roundtrip (pr : IPullRequestModel)
    (_how : '#' ∉ pr.base.repositoryCloneUrl.owner.data)
    (hrn : '#' ∉ pr.base.repositoryCloneUrl.repositoryName.data) :
    parsePullRequestMetadata (some (buildPullRequestMetadata pr)) =
      some ⟨pr.base.repositoryCloneUrl.owner, pr.base.repositoryCloneUrl.repositoryName,
            JSNumber.val pr.prNumber⟩ := by
  set o := pr.base.repositoryCloneUrl.owner with ho
  set r := pr.base.repositoryCloneUrl.repositoryName with hr
  have hhd : ("#" : String).data = ['#'] := rfl
  have hdata : (buildPullRequestMetadata pr).data
      = (o.data ++ '#' :: r.data) ++ '#' :: (natToString pr.prNumber).data := by
    simp [buildPullRequestMetadata, data_append, hhd, ← ho, ← hr]
  have hsplit1 : splitLastCh '#'
      ((o.data ++ '#' :: r.data) ++ '#' :: (natToString pr.prNumber).data)
      = some (o.data ++ '#' :: r.data, (natToString pr.prNumber).data) :=
    splitLastCh_append _ (hash_not_mem_natToString pr.prNumber)
  have hsplit2 : splitLastCh '#' (o.data ++ '#' :: r.data) = some (o.data, r.data) :=
    splitLastCh_append _ hrn
  simp only [parsePullRequestMetadata, hdata, hsplit1, hsplit2, mk_data,
    jsNumber_natToString, List.append_eq_nil, List.cons_ne_nil, and_false, if_false]

/-- C3 witness: a concrete round-trip instance. -/
theorem metadata_roundtrip_witness :
    parsePullRequestMetadata (some (buildPullRequestMetadata
      ⟨42, ⟨"forker"⟩, ⟨"feature-x", "h", ⟨"forker", "hello-world", "u1"⟩⟩,
        ⟨"master", "b", ⟨"octocat", "hello-world", "u2"⟩⟩⟩)) =
      some ⟨"octocat", "hello-world", JSNumber.val 42⟩ :=
  metadata_roundtrip
    ⟨42, ⟨"forker"⟩, ⟨"feature-x", "h", ⟨"forker", "hello-world", "u1"⟩⟩,
      ⟨"master", "b", ⟨"octocat", "hello-world", "u2"⟩⟩⟩
    (by decide) (by decide)

/-- C9: decoding a missing value, the empty string, or a `#`-free malformed
string such as "garbage" yields no metadata and no error. -/
theorem parsePullRequestMetadata_null_cases :
    parsePullRequestMetadata none = none ∧
    parsePullRequestMetadata (some "") = none ∧
    parsePullRequestMetadata (some "garbage") = none := by
  refine ⟨rfl, rfl, ?_⟩
  decide

lemma splitLastCh_isSome_of_count {ch : Char} {cs : List Char} (h : 1 ≤ cs.count ch) :
    ∃ b a, splitLastCh ch cs = some (b, a) := by
  rcases hs : splitLastCh ch cs with _ | ⟨b, a⟩
  · have hnm : ch ∉ cs := splitLastCh_eq_none.1 hs
    rw [List.count_eq_zero.2 hnm] at h
    omega
  · exact ⟨b, a, rfl⟩

lemma string_data_ne_nil {s : String} (h : s ≠ "") : s.data ≠ [] := by
  intro hd
  exact h (String.ext hd)

/-- C10 (implicit): every non-empty input with at least two `#` characters
decodes to a non-null metadata record whose `prNumber` is the JavaScript
numeric conversion of the text after the last `#`, NaN included; in
particular `a#b#xyz` decodes to a record with prNumber NaN instead of the
null a reader of the malformed-input rule might expect. -/
theorem parsePullRequestMetadata_two_hashes :
    (∀ s : String, s ≠ "" → 2 ≤ s.data.count '#' →
      ∃ md rest g3, splitLastCh '#' s.data = some (rest, g3) ∧
        parsePullRequestMetadata (some s) = some md ∧
        md.prNumber = jsNumberOfString (String.mk g3)) ∧
    parsePullRequestMetadata (some "a#b#xyz") = some ⟨"a", "b", JSNumber.nan⟩ := by
  constructor
  · intro s hne h2
    obtain ⟨rest, g3, hs1⟩ := @splitLastCh_isSome_of_count '#' s.data (by omega)
    obtain ⟨heq, hnm⟩ := splitLastCh_eq_some hs1
    have h3 : g3.count '#' = 0 := List.count_eq_zero.2 hnm
    have hcnt : s.data.count '#' = rest.count '#' + (g3.count '#' + 1) := by
      rw [heq, List.count_append, List.count_cons_self]
    obtain ⟨g1, g2, hs2⟩ := @splitLastCh_isSome_of_count '#' rest (by omega)
    refine ⟨⟨String.mk g1, String.mk g2, jsNumberOfString (String.mk g3)⟩, rest, g3,
      hs1, ?_, rfl⟩
    simp only [parsePullRequestMetadata, if_neg (string_data_ne_nil hne), hs1, hs2]
  · decide

/-- C10 witness: the theorem instantiated at the concrete input `a#b#xyz`. -/
theorem parsePullRequestMetadata_two_hashes_witness :
    ∃ md rest g3, splitLastCh '#' ("a#b#xyz" : String).data = some (rest, g3) ∧
      parsePullRequestMetadata (some "a#b#xyz") = some md ∧
      md.prNumber = jsNumberOfString (String.mk g3) :=
  parsePullRequestMetadata_two_hashes.1 "a#b#xyz" (by decide) (by decide)

/-- Local branch as exposed by the version-control engine: name, commit,
optional upstream tracking ref and ahead/behind counts (absent counts model
the `undefined` the engine may report). -/
structure Branch where
  name : String
  commit : String
  upstream : Option String
  ahead : Option Nat
  behind : Option Nat
deriving DecidableEq, Repr

/-- Remote as exposed by the version-control engine.  `gitProtocol` is the
optional parsed clone identity of the remote's URL. -/
structure Remote where
  remoteName : String
  url : String
  gitProtocol : Option Protocol
deriving DecidableEq, Repr

/-- One persisted config entry. -/
structure ConfigEntry where
  key : String
  value : String
deriving DecidableEq, Repr

/-- Known hosted repository: a wrapper carrying a remote. -/
structure GitHubRepository where
  remote : Remote
deriving DecidableEq, Repr

/-- Modelled from the spec: the state of the external version-control
engine that the resolver reads and mutates — local branches (including
remote-tracking refs, addressable by their full `refs/remotes/...` name),
remotes, the per-repository config store and the checked-out branch. -/
structure Repository where
  branches : List Branch
  remotes : List Remote
  configs : List ConfigEntry
  headBranch : Option String
deriving DecidableEq, Repr

/-- Mutating engine calls and the raw commands the resolver issues, in
program order.  Read-only calls are not recorded. -/
inductive GitEvent where
  | fetchEv (remoteName : String) (ref : Option String)
  | checkoutEv (name : String)
  | createBranchEv (name commit : String)
  | setTrackingEv (name upstreamRef : String)
  | addRemoteEv (name url : String)
  | setConfigEv (key value : String)
  | runEv (args : List String)
  | getMergeBaseEv (shaA shaB : String)
deriving DecidableEq, Repr

/-- Modelled from the spec: `getBranch` resolves a branch (or tracking ref)
by name, null when absent. -/
def Repository.getBranch (repo : Repository) (name : String) : Option Branch :=
  repo.branches.find? (fun b => b.name == name)

/-- Modelled from the spec: `checkout` makes the named branch current. -/
def Repository.checkout (repo : Repository) (name : String) : Repository :=
  { repo with headBranch := some name }

/-- Modelled from the spec: `createBranch` adds a local branch at the given
commit, with no upstream and unknown ahead/behind counts. -/
def Repository.createBranch (repo : Repository) (name commit : String) : Repository :=
  { repo with branches := repo.branches ++ [⟨name, commit, none, none, none⟩] }

/-- Modelled from the spec: `setTrackingBranch` sets the upstream ref of the
named branch. -/
def Repository.setTrackingBranch (repo : Repository) (name upstreamRef : String) : Repository :=
  let f := fun (b : Branch) =>
    if b.name = name then { b with upstream := some upstreamRef } else b
  { repo with branches := repo.branches.map f }

/-- Modelled from the spec: `addRemote` appends a remote at the given URL. -/
def Repository.addRemote (repo : Repository) (name url : String) : Repository :=
  { repo with remotes := repo.remotes ++ [⟨name, url, some (protocolOfUrl url)⟩] }

/-- Modelled from the spec: `getConfig` reads one config value, null when
the key is absent. -/
def Repository.getConfig (repo : Repository) (key : String) : Option String :=
  (repo.configs.find? (fun c => c.key == key)).map (fun c => c.value)

/-- Modelled from the spec: `setConfig` writes or overwrites one config
entry. -/
def Repository.setConfig (repo : Repository) (key value : String) : Repository :=
  let f := fun (c : ConfigEntry) => if c.key = key then ⟨key, value⟩ else c
  if repo.configs.any (fun c => c.key == key) then
    { repo with configs := repo.configs.map f }
  else
    { repo with configs := repo.configs ++ [⟨key, value⟩] }

/-- Splits a character list at the FIRST occurrence of `ch`. -/
def splitFirstCh (ch : Char) : List Char → Option (List Char × List Char)
  | [] => none
  | c :: cs =>
    if c = ch then some ([], cs)
    else (splitFirstCh ch cs).map (fun p => (c :: p.1, p.2))

/-- Modelled from the spec: `fetch`.  Without a refspec the engine updates
remote-tracking state we leave abstract (the post-fetch ref set is part of
the input state), so the state is unchanged; with a `src:dst` refspec the
fetch materializes local branch `dst` at the fetched commit (spec 4.3b). -/
def Repository.fetch (repo : Repository) (_remoteName : String) (ref : Option String) :
    Repository :=
  match ref with
  | none => repo
  | some r =>
    match splitFirstCh ':' r.data with
    | none => repo
    | some (_src, dst) =>
      let dstName := String.mk dst
      let f := fun (b : Branch) =>
        if b.name = dstName then { b with commit := "fetched" } else b
      if (repo.getBranch dstName).isSome then
        { repo with branches := repo.branches.map f }
      else
        { repo with branches := repo.branches ++ [⟨dstName, "fetched", none, none, none⟩] }

/-- Modelled from the spec: `run` executes a raw engine command (`pull`);
its effect lives in engine state this embedding keeps abstract, so it is
tracked only as an emitted event. -/
def Repository.run (repo : Repository) (_args : List String) : Repository :=
  repo

/-- Searches the rest of `taken`-avoiding candidates starting at index `k`.
The fuel bounds the loop; every use supplies enough fuel for a free
candidate to exist, so the exhaustion default is never reached. -/
def firstFresh (taken : String → Bool) (cand : Nat → String) : Nat → Nat → String
  | k, 0 => cand k
  | k, fuel + 1 => if taken (cand k) then firstFresh taken cand (k + 1) fuel else cand k

/-- Candidate local branch names: the canonical name, then `-1`, `-2`, ... -/
def branchCandidate (base : String) : Nat → String
  | 0 => base
  | k + 1 => base ++ "-" ++ natToString (k + 1)

/-- Function `getBranchNameForPullRequest`: canonical candidate
`pr/<authorLogin>/<prNumber>`, suffixed `-1`, `-2`, ... while a branch of
the candidate name exists. -/
def getBranchNameForPullRequest (repo : Repository) (pr : IPullRequestModel) : String :=
  let branchName := "pr/" ++ pr.author.login ++ "/" ++ natToString pr.prNumber
  firstFresh (fun s => (repo.getBranch s).isSome) (branchCandidate branchName) 0
    (repo.branches.length + 1)

/-- Candidate remote names: the bare owner name, then `<name>1`, `<name>2`,
... (no dash, by contrast with branch candidates). -/
def remoteCandidate (name : String) : Nat → String
  | 0 => name
  | k + 1 => name ++ natToString (k + 1)

/-- Function `getUniqueRemoteName`: first candidate remote name not already used by
an existing remote. -/
def getUniqueRemoteName (repo : Repository) (name : String) : String :=
  firstFresh (fun s => (repo.remotes.find? (fun e => e.remoteName == s)).isSome)
    (remoteCandidate name) 0 (repo.remotes.length + 1)

/-- Function `createRemote`: reuse the first existing remote whose URL's clone
identity equals `cloneUrl`; otherwise add a remote under a unique name at
the normalized URL and stamp the tool-managed marker config entry. -/
def createRemote (repo : Repository) (cloneUrl : Protocol) :
    String × Repository × List GitEvent :=
  match repo.remotes.find? (fun remote => protocolEquals (protocolOfUrl remote.url) cloneUrl) with
  | some remote => (remote.remoteName, repo, [])
  | none =>
    let remoteName := getUniqueRemoteName repo cloneUrl.owner
    let url := normalizeUriToString cloneUrl
    let repo1 := repo.addRemote remoteName url
    let markerKey := "remote." ++ remoteName ++ "." ++ PullRequestRemoteMetadataKey
    (remoteName, repo1.setConfig markerKey "true",
      [.addRemoteEv remoteName url, .setConfigEv markerKey "true"])

/-- Function `isRemoteCreatedForPullRequest`: the marker config entry reads the
literal value "true". -/
def isRemoteCreatedForPullRequest (repo : Repository) (remoteName : String) : Bool :=
  repo.getConfig ("remote." ++ remoteName ++ "." ++ PullRequestRemoteMetadataKey) == some "true"

/-- Function `createAndCheckout`: materialize a local branch for the PR and record
the association.  When a branch of the computed name exists it is only
checked out; otherwise a remote is resolved/created, the head is fetched
into the local branch, checked out, and set to track the head ref.  In both
cases the association config entry is (re)written. -/
def createAndCheckout (repo : Repository) (pr : IPullRequestModel) :
    Repository × List GitEvent :=
  let localBranchName := getBranchNameForPullRequest repo pr
  let prBranchMetadataKey := "branch." ++ localBranchName ++ "." ++ PullRequestMetadataKey
  let metadataVal := buildPullRequestMetadata pr
  match repo.getBranch localBranchName with
  | some _ =>
    let repo1 := repo.checkout localBranchName
    (repo1.setConfig prBranchMetadataKey metadataVal,
      [.checkoutEv localBranchName, .setConfigEv prBranchMetadataKey metadataVal])
  | none =>
    let step := createRemote repo pr.head.repositoryCloneUrl
    let remoteName := step.1
    let repo1 := step.2.1
    let ev1 := step.2.2
    let ref := pr.head.ref ++ ":" ++ localBranchName
    let repo2 := repo1.fetch remoteName (some ref)
    let repo3 := repo2.checkout localBranchName
    let upstreamRef := "refs/remotes/" ++ remoteName ++ "/" ++ pr.head.ref
    let repo4 := repo3.setTrackingBranch localBranchName upstreamRef
    (repo4.setConfig prBranchMetadataKey metadataVal,
      ev1 ++ [.fetchEv remoteName (some ref), .checkoutEv localBranchName,
        .setTrackingEv localBranchName upstreamRef,
        .setConfigEv prBranchMetadataKey metadataVal])

/-- Function `fetchAndCreateBranch`: requires the remote-tracking ref
`refs/remotes/<remote>/<branchName>` to be present; creates the local
branch at its commit and sets tracking, or fails fatally when the ref is
absent.  Despite its name it issues no fetch of its own. -/
def fetchAndCreateBranch (repo : Repository) (remote : Remote) (branchName : String)
    (_pr : IPullRequestModel) : Except String (Repository × List GitEvent) :=
  let remoteName := remote.remoteName
  let trackedBranchName := "refs/remotes/" ++ remoteName ++ "/" ++ branchName
  match repo.getBranch trackedBranchName with
  | some trackedBranch =>
    let repo1 := repo.createBranch branchName trackedBranch.commit
    let repo2 := repo1.setTrackingBranch branchName trackedBranchName
    .ok (repo2, [.createBranchEv branchName trackedBranch.commit,
      .setTrackingEv branchName trackedBranchName])
  | none => .error ("Could not find branch " ++ trackedBranchName ++ ".")

/-- Function `associateBranchWithPullRequest`: write the association config entry for
the branch. -/
def associateBranchWithPullRequest (repo : Repository) (pr : IPullRequestModel)
    (branchName : String) : Repository × List GitEvent :=
  let prConfigKey := "branch." ++ branchName ++ "." ++ PullRequestMetadataKey
  (repo.setConfig prConfigKey (buildPullRequestMetadata pr),
    [.setConfigEv prConfigKey (buildPullRequestMetadata pr)])

/-- Transcription of the pull guard
`branch.behind !== undefined && branch.behind > 0 && branch.ahead === 0`:
an absent `behind` count fails the first conjunct, and an absent `ahead`
count fails the strict `=== 0` comparison. -/
def shouldPull (branch : Branch) : Bool :=
  (match branch.behind with
   | some x => decide (0 < x)
   | none => false) && (branch.ahead == some 0)

/-- Function `fetchAndCheckout`: fetch the remote, materialize the branch when
missing, check it out, set tracking when absent, fast-forward by pulling
only when strictly behind with no local-only commits, then stamp the
association. -/
def fetchAndCheckout (repo : Repository) (remote : Remote) (branchName : String)
    (pr : IPullRequestModel) : Except String (Repository × List GitEvent) :=
  let remoteName := remote.remoteName
  let repo0 := repo.fetch remoteName none
  let ev0 : List GitEvent := [.fetchEv remoteName none]
  let afterBranch : Except String (Repository × List GitEvent × Branch) :=
    match repo0.getBranch branchName with
    | some branch => .ok (repo0, ev0, branch)
    | none =>
      match fetchAndCreateBranch repo0 remote branchName pr with
      | .error e => .error e
      | .ok (repo1, ev1) =>
        match repo1.getBranch branchName with
        | some branch => .ok (repo1, ev0 ++ ev1, branch)
        | none => .error "TypeError: branch is null"
  match afterBranch with
  | .error e => .error e
  | .ok (repoA, evA, branch) =>
    let repo2 := repoA.checkout branchName
    let ev2 := evA ++ [GitEvent.checkoutEv branchName]
    let trackedBranchName := "refs/remotes/" ++ remoteName ++ "/" ++ branchName
    let step3 : Repository × List GitEvent :=
      match branch.upstream with
      | some _ => (repo2, ev2)
      | none => (repo2.setTrackingBranch branchName trackedBranchName,
          ev2 ++ [GitEvent.setTrackingEv branchName trackedBranchName])
    let repo3 := step3.1
    let ev3 := step3.2
    let step4 : Repository × List GitEvent :=
      if shouldPull branch then (repo3.run ["pull"], ev3 ++ [GitEvent.runEv ["pull"]])
      else (repo3, ev3)
    let step5 := associateBranchWithPullRequest step4.1 pr branchName
    .ok (step5.1, step4.2 ++ step5.2)

/-- Splits a character list at the FIRST occurrence of the pattern `pat`,
returning the parts strictly before and strictly after the occurrence. -/
def splitFirstOnSub (pat : List Char) : List Char → Option (List Char × List Char)
  | [] => none
  | c :: cs =>
    if pat.isPrefixOf (c :: cs) then some ([], (c :: cs).drop pat.length)
    else (splitFirstOnSub pat cs).map (fun p => (c :: p.1, p.2))

/-- Splits a character list at the LAST occurrence of the pattern `pat`. -/
def splitLastOnSub (pat : List Char) : List Char → Option (List Char × List Char)
  | [] => none
  | c :: cs =>
    match splitLastOnSub pat cs with
    | some (b, a) => some (c :: b, a)
    | none =>
      if pat.isPrefixOf (c :: cs) then some ([], (c :: cs).drop pat.length) else none

/-- Match of `PullRequestBranchRegex` = `branch\.(.+)\.github-pr-owner-number`
against a config key, returning capture group 1.  The unanchored search
matches at the leftmost `branch.`; the greedy `(.+)` extends the group to
the last later occurrence of `.github-pr-owner-number`, and requires the
group to be non-empty. -/
def pullRequestBranchRegexMatch (key : String) : Option String :=
  match splitFirstOnSub "branch.".data key.data with
  | none => none
  | some (_, rest) =>
    match splitLastOnSub ".github-pr-owner-number".data rest with
    | none => none
    | some (name, _) => if name = [] then none else some (String.mk name)

/-- Guard `remote.gitProtocol && remote.gitProtocol.equals(head clone URL)`:
an absent protocol is falsy. -/
def remoteMatchesHead (pr : IPullRequestModel) (g : GitHubRepository) : Bool :=
  match g.remote.gitProtocol with
  | some p => protocolEquals p pr.head.repositoryCloneUrl
  | none => false

/-- Function `getHeadRemoteForPullRequest`: first known hosted repository whose
remote carries a clone identity equal to the PR head's clone URL. -/
def getHeadRemoteForPullRequest (_repository : Repository)
    (githubRepositories : List GitHubRepository) (pr : IPullRequestModel) : Option Remote :=
  (githubRepositories.find? (remoteMatchesHead pr)).map (fun g => g.remote)

/-- Reverse config index: the branch names captured from config keys of
shape `branch.<name>.github-pr-owner-number` whose value equals `key`, in
config order (the source's map-then-filter over `getConfigs()`). -/
def matchingPrBranches (repo : Repository) (key : String) : List String :=
  repo.configs.filterMap (fun config =>
    match pullRequestBranchRegexMatch config.key with
    | some b => if config.value = key then some b else none
    | none => none)

/-- Function `getBranchForPullRequestFromExistingRemotes`: direct head-remote match
first; otherwise the reverse config index is consulted and only its first
entry is resolved through `branch.<name>.remote` against the remote set. -/
def getBranchForPullRequestFromExistingRemotes (repo : Repository)
    (githubRepositories : List GitHubRepository) (pr : IPullRequestModel) :
    Option (Remote × String) :=
  match getHeadRemoteForPullRequest repo githubRepositories pr with
  | some headRemote => some (headRemote, pr.head.ref)
  | none =>
    let key := buildPullRequestMetadata pr
    let branchInfos := matchingPrBranches repo key
    match branchInfos with
    | [] => none
    | b :: _ =>
      let remoteName := repo.getConfig ("branch." ++ b ++ ".remote")
      match repo.remotes.find? (fun remote => some remote.remoteName == remoteName) with
      | some rm => some (rm, b)
      | none => none

/-- Function `getMatchingPullRequestMetadataForBranch`: decode the association config
entry of a branch. -/
def getMatchingPullRequestMetadataForBranch (repo : Repository) (branchName : String) :
    Option PullRequestMetadata :=
  parsePullRequestMetadata (repo.getConfig ("branch." ++ branchName ++ "."
    ++ PullRequestMetadataKey))

/-- JavaScript truthiness of a nullable string: null and the empty string
are falsy. -/
def jsTruthyStr : Option String → Bool
  | none => false
  | some s => !(s == "")

/-- Function `getPullRequestMergeBase`: try the engine's merge-base computation; on a
falsy result fetch the synthetic PR head ref and the base ref, then retry
exactly once.  Modelled from the spec: the engine's successive
`getMergeBase` responses enter as oracle inputs `mb1` (first call) and
`mb2` (the call made after the two fetches). -/
def getPullRequestMergeBase (remote : Remote) (pr : IPullRequestModel)
    (mb1 mb2 : Option String) : Option String × List GitEvent :=
  if jsTruthyStr mb1 then
    (mb1, [.getMergeBaseEv pr.base.sha pr.head.sha])
  else
    let pullrequestHeadRef := "refs/pull/" ++ natToString pr.prNumber ++ "/head"
    (mb2, [.getMergeBaseEv pr.base.sha pr.head.sha,
      .fetchEv remote.remoteName (some pullrequestHeadRef),
      .fetchEv remote.remoteName (some pr.base.ref),
      .getMergeBaseEv pr.base.sha pr.head.sha])

/-- Concrete pull request used by the concrete scenarios: PR #42, author
login `forker`, head `feature-x` on the fork `forker/hello-world`, base
`master` on `octocat/hello-world`. -/
def prA : IPullRequestModel :=
  ⟨42, ⟨"forker"⟩,
    ⟨"feature-x", "headsha", ⟨"forker", "hello-world", "https://bb/forker/hello-world"⟩⟩,
    ⟨"master", "basesha", ⟨"octocat", "hello-world", "https://bb/octocat/hello-world"⟩⟩⟩

/-- Repository with no branches, remotes or config. -/
def emptyRepo : Repository := ⟨[], [], [], none⟩

/-- C1: the claimed idempotence fails on the code.  After a first
`createAndCheckout` run on an empty repository leaves the canonical branch
`pr/forker/42` behind, a second run does not just check that branch out: it
computes the suffixed name `pr/forker/42-1`, issues a fetch, creates a
second branch and a second association entry, so the final state differs
from the single-run state.  The source's own comment intends the
existing-branch path to handle this re-entry, but `getBranchNameForPullRequest`
only ever returns names with no existing branch, making that path
unreachable. -/
theorem createAndCheckout_second_run_refetches :
    ((createAndCheckout emptyRepo prA).1.getBranch "pr/forker/42").isSome = true ∧
    getBranchNameForPullRequest (createAndCheckout emptyRepo prA).1 prA = "pr/forker/42-1" ∧
    GitEvent.fetchEv "forker" (some "feature-x:pr/forker/42-1")
      ∈ (createAndCheckout (createAndCheckout emptyRepo prA).1 prA).2 ∧
    (createAndCheckout (createAndCheckout emptyRepo prA).1 prA).1.branches.length = 2 ∧
    (createAndCheckout emptyRepo prA).1.branches.length = 1 := by
  decide

/-- C8 counterexample: the claim says the first `getMergeBase` result is
returned whenever it is non-null, but the code tests JavaScript truthiness,
so a non-null empty-string first result is not returned: the code falls
through to the fetch-and-retry path and reports the second result. -/
theorem getPullRequestMergeBase_counterexample :
    (getPullRequestMergeBase ⟨"origin", "u", none⟩ prA (some "") none).1 ≠ some "" ∧
    (getPullRequestMergeBase ⟨"origin", "u", none⟩ prA (some "") none).1 = none := by
  decide

/-- C8 (amended): when the first engine result is truthy (non-null and
non-empty) it is returned after a single engine call; otherwise the code
fetches `refs/pull/<prNumber>/head` and then the PR base ref from the given
remote, retries the merge-base computation exactly once, and returns that
second result (null included) — the trace shows exactly two engine calls
and two fetches, in that order. -/
theorem getPullRequestMergeBase_retry (remote : Remote) (pr : IPullRequestModel)
    (mb1 mb2 : Option String) :
    (jsTruthyStr mb1 = true →
      getPullRequestMergeBase remote pr mb1 mb2
        = (mb1, [.getMergeBaseEv pr.base.sha pr.head.sha])) ∧
    (jsTruthyStr mb1 = false →
      getPullRequestMergeBase remote pr mb1 mb2
        = (mb2, [.getMergeBaseEv pr.base.sha pr.head.sha,
            .fetchEv remote.remoteName
              (some ("refs/pull/" ++ natToString pr.prNumber ++ "/head")),
            .fetchEv remote.remoteName (some pr.base.ref),
            .getMergeBaseEv pr.base.sha pr.head.sha])) := by
  constructor
  · intro h
    simp [getPullRequestMergeBase, h]
  · intro h
    simp [getPullRequestMergeBase, h]

/-- C8 witness: both branches of the amended statement exercised at
concrete inputs. -/
theorem getPullRequestMergeBase_retry_witness :
    getPullRequestMergeBase ⟨"origin", "u", none⟩ prA (some "sha1") none
      = (some "sha1", [.getMergeBaseEv prA.base.sha prA.head.sha]) ∧
    getPullRequestMergeBase ⟨"origin", "u", none⟩ prA none (some "mb")
      = (some "mb", [.getMergeBaseEv prA.base.sha prA.head.sha,
          .fetchEv "origin" (some ("refs/pull/" ++ natToString prA.prNumber ++ "/head")),
          .fetchEv "origin" (some prA.base.ref),
          .getMergeBaseEv prA.base.sha prA.head.sha]) :=
  ⟨(getPullRequestMergeBase_retry ⟨"origin", "u", none⟩ prA (some "sha1") none).1 (by decide),
   (getPullRequestMergeBase_retry ⟨"origin", "u", none⟩ prA none (some "mb")).2 (by decide)⟩

lemma firstFresh_least (taken : String → Bool) (cand : Nat → String) :
    ∀ fuel k, (∃ j, j ≤ fuel ∧ taken (cand (k + j)) = false) →
      ∃ j, firstFresh taken cand k fuel = cand (k + j) ∧ taken (cand (k + j)) = false ∧
        ∀ i < j, taken (cand (k + i)) = true := by
  intro fuel
  induction fuel with
  | zero =>
    intro k h
    obtain ⟨j, hj, hf⟩ := h
    have hj0 : j = 0 := by omega
    subst hj0
    exact ⟨0, rfl, hf, by intro i hi; omega⟩
  | succ fuel ih =>
    intro k h
    obtain ⟨j, hj, hf⟩ := h
    by_cases ht : taken (cand k) = true
    · have hj0 : j ≠ 0 := by
        intro h0
        subst h0
        rw [Nat.add_zero, ht] at hf
        cases hf
      obtain ⟨j2, h1, h2, h3⟩ := ih (k + 1) ⟨j - 1, by omega, by
        have hkj : k + 1 + (j - 1) = k + j := by omega
        rw [hkj]
        exact hf⟩
      refine ⟨j2 + 1, ?_, ?_, ?_⟩
      · rw [firstFresh, if_pos ht, h1]
        congr 1
        omega
      · have hkj : k + (j2 + 1) = k + 1 + j2 := by omega
        rw [hkj]
        exact h2
      · intro i hi
        cases i with
        | zero => rw [Nat.add_zero]; exact ht
        | succ i2 =>
          have hkj : k + (i2 + 1) = k + 1 + i2 := by omega
          rw [hkj]
          exact h3 i2 (by omega)
    · have ht2 : taken (cand k) = false := by
        cases hT : taken (cand k)
        · rfl
        · exact absurd hT ht
      refine ⟨0, ?_, ?_, by intro i hi; omega⟩
      · rw [firstFresh, if_neg ht, Nat.add_zero]
      · rw [Nat.add_zero]
        exact ht2

lemma exists_fresh_in_range (names : List String) (cand : Nat → String)
    (hinj : ∀ i j : Nat, cand (i + 1) = cand (j + 1) → i = j) :
    ∃ j, j ≤ names.length + 1 ∧ cand j ∉ names := by
  by_contra hcon
  push_neg at hcon
  have hnd : ((List.range (names.length + 1)).map (fun k => cand (k + 1))).Nodup :=
    (List.nodup_range _).map (fun i j hij => hinj i j hij)
  have hsub : ((List.range (names.length + 1)).map (fun k => cand (k + 1))).toFinset
      ⊆ names.toFinset := by
    intro x hx
    rw [List.mem_toFinset] at hx ⊢
    obtain ⟨k, hk, rfl⟩ := List.mem_map.1 hx
    rw [List.mem_range] at hk
    exact hcon (k + 1) (by omega)
  have hcard := Finset.card_le_card hsub
  rw [List.toFinset_card_of_nodup hnd] at hcard
  have h2 := names.toFinset_card_le
  simp at hcard
  omega

lemma getBranch_isSome_iff (repo : Repository) (s : String) :
    (repo.getBranch s).isSome = true ↔ s ∈ repo.branches.map (fun b => b.name) := by
  unfold Repository.getBranch
  rw [List.find?_isSome]
  constructor
  · rintro ⟨b, hb, hp⟩
    rw [List.mem_map]
    exact ⟨b, hb, by simpa [beq_iff_eq] using hp⟩
  · rw [List.mem_map]
    rintro ⟨b, hb, hbs⟩
    exact ⟨b, hb, by simp [hbs]⟩

lemma hyphen_data : ("-" : String).data = ['-'] := rfl

lemma branchCandidate_inj (base : String) :
    ∀ i j : Nat, branchCandidate base (i + 1) = branchCandidate base (j + 1) → i = j := by
  intro i j h
  simp only [branchCandidate] at h
  have hd := congrArg String.data h
  simp only [data_append, hyphen_data] at hd
  rw [List.append_assoc, List.append_assoc] at hd
  have h2 := List.append_cancel_left hd
  have h3 := List.append_cancel_left h2
  have h4 : natToString (i + 1) = natToString (j + 1) := String.ext h3
  have h5 := natToString_inj h4
  omega

lemma getBranchNameForPullRequest_least (repo : Repository) (pr : IPullRequestModel) :
    ∃ j, getBranchNameForPullRequest repo pr
        = branchCandidate ("pr/" ++ pr.author.login ++ "/" ++ natToString pr.prNumber) j ∧
      (repo.getBranch
        (branchCandidate ("pr/" ++ pr.author.login ++ "/" ++ natToString pr.prNumber) j)).isSome
          = false ∧
      ∀ i < j, (repo.getBranch
        (branchCandidate ("pr/" ++ pr.author.login ++ "/" ++ natToString pr.prNumber) i)).isSome
          = true := by
  set base := "pr/" ++ pr.author.login ++ "/" ++ natToString pr.prNumber with hbase
  have hex : ∃ j, j ≤ repo.branches.length + 1 ∧
      ((repo.getBranch (branchCandidate base j)).isSome : Bool) = false := by
    obtain ⟨j, hj, hnm⟩ := exists_fresh_in_range (repo.branches.map (fun b => b.name))
      (branchCandidate base) (branchCandidate_inj base)
    refine ⟨j, by simpa using hj, ?_⟩
    cases hS : (repo.getBranch (branchCandidate base j)).isSome
    · rfl
    · exact absurd ((getBranch_isSome_iff repo _).1 hS) hnm
  obtain ⟨j, h1, h2, h3⟩ := firstFresh_least (fun s => (repo.getBranch s).isSome)
    (branchCandidate base) (repo.branches.length + 1) 0 (by simpa using hex)
  rw [Nat.zero_add] at h1 h2
  refine ⟨j, ?_, h2, ?_⟩
  · rw [getBranchNameForPullRequest, ← hbase]
    exact h1
  · intro i hi
    have := h3 i hi
    rwa [Nat.zero_add] at this

/-- C5: the generated local branch name never collides with an existing
branch; if the canonical `pr/<authorLogin>/<prNumber>` is free it is
returned unchanged, and in general the result is the first of the
candidates canonical, `-1`, `-2`, ... whose name is free, every earlier
candidate being taken. -/
theorem getBranchNameForPullRequest_fresh (repo : Repository) (pr : IPullRequestModel) :
    repo.getBranch (getBranchNameForPullRequest repo pr) = none ∧
    (repo.getBranch ("pr/" ++ pr.author.login ++ "/" ++ natToString pr.prNumber) = none →
      getBranchNameForPullRequest repo pr
        = "pr/" ++ pr.author.login ++ "/" ++ natToString pr.prNumber) ∧
    ∃ j, getBranchNameForPullRequest repo pr
        = branchCandidate ("pr/" ++ pr.author.login ++ "/" ++ natToString pr.prNumber) j ∧
      ∀ i < j, (repo.getBranch
        (branchCandidate ("pr/" ++ pr.author.login ++ "/" ++ natToString pr.prNumber) i)).isSome
          = true := by
  obtain ⟨j, h1, h2, h3⟩ := getBranchNameForPullRequest_least repo pr
  refine ⟨?_, ?_, j, h1, h3⟩
  · rw [h1]
    cases hS : repo.getBranch (branchCandidate ("pr/" ++ pr.author.login ++ "/"
        ++ natToString pr.prNumber) j)
    · rfl
    · rw [hS] at h2
      cases h2
  · intro hc
    by_cases hj : j = 0
    · subst hj
      rw [h1]
      rfl
    · exfalso
      have h0 := h3 0 (by omega)
      have hb0 : branchCandidate ("pr/" ++ pr.author.login ++ "/"
          ++ natToString pr.prNumber) 0
          = "pr/" ++ pr.author.login ++ "/" ++ natToString pr.prNumber := rfl
      rw [hb0, hc] at h0
      cases h0

/-- C5 witness: on an empty repository the canonical name is returned. -/
theorem getBranchNameForPullRequest_fresh_witness :
    getBranchNameForPullRequest emptyRepo prA = "pr/forker/42" :=
  (getBranchNameForPullRequest_fresh emptyRepo prA).2.1 (by decide)

lemma remoteCandidate_inj (name : String) :
    ∀ i j : Nat, remoteCandidate name (i + 1) = remoteCandidate name (j + 1) → i = j := by
  intro i j h
  simp only [remoteCandidate] at h
  have hd := congrArg String.data h
  simp only [data_append] at hd
  have h2 := List.append_cancel_left hd
  have h4 : natToString (i + 1) = natToString (j + 1) := String.ext h2
  have h5 := natToString_inj h4
  omega

lemma remoteFind_isSome_iff (repo : Repository) (s : String) :
    ((repo.remotes.find? (fun e => e.remoteName == s)).isSome = true) ↔
      s ∈ repo.remotes.map (fun r => r.remoteName) := by
  rw [List.find?_isSome]
  constructor
  · rintro ⟨r, hr, hp⟩
    rw [List.mem_map]
    exact ⟨r, hr, by simpa [beq_iff_eq] using hp⟩
  · rw [List.mem_map]
    rintro ⟨r, hr, hrs⟩
    exact ⟨r, hr, by simp [hrs]⟩

lemma getUniqueRemoteName_fresh (repo : Repository) (name : String) :
    ∀ r ∈ repo.remotes, r.remoteName ≠ getUniqueRemoteName repo name := by
  have hex : ∃ j, j ≤ repo.remotes.length + 1 ∧
      ((repo.remotes.find? (fun e => e.remoteName == remoteCandidate name j)).isSome : Bool)
        = false := by
    obtain ⟨j, hj, hnm⟩ := exists_fresh_in_range (repo.remotes.map (fun r => r.remoteName))
      (remoteCandidate name) (remoteCandidate_inj name)
    refine ⟨j, by simpa using hj, ?_⟩
    cases hS : (repo.remotes.find? (fun e => e.remoteName == remoteCandidate name j)).isSome
    · rfl
    · exact absurd ((remoteFind_isSome_iff repo _).1 hS) hnm
  obtain ⟨j, h1, h2, _⟩ := firstFresh_least
    (fun s => (repo.remotes.find? (fun e => e.remoteName == s)).isSome)
    (remoteCandidate name) (repo.remotes.length + 1) 0 (by simpa using hex)
  rw [Nat.zero_add] at h1 h2
  intro r hr heq
  have hres : getUniqueRemoteName repo name = remoteCandidate name j := by
    rw [getUniqueRemoteName]
    exact h1
  have hmem : getUniqueRemoteName repo name ∈ repo.remotes.map (fun r => r.remoteName) :=
    List.mem_map.2 ⟨r, hr, heq⟩
  have hS := (remoteFind_isSome_iff repo _).2 hmem
  rw [hres] at hS
  rw [hS] at h2
  cases h2

lemma setConfig_remotes (repo : Repository) (k v : String) :
    (repo.setConfig k v).remotes = repo.remotes := by
  unfold Repository.setConfig
  split <;> rfl

lemma setConfig_branches (repo : Repository) (k v : String) :
    (repo.setConfig k v).branches = repo.branches := by
  unfold Repository.setConfig
  split <;> rfl

lemma find?_map_setKey (l : List ConfigEntry) (k v : String)
    (h : l.any (fun c => c.key == k) = true) :
    (l.map (fun c => if c.key = k then ⟨k, v⟩ else c)).find? (fun c => c.key == k)
      = some ⟨k, v⟩ := by
  induction l with
  | nil => simp at h
  | cons c l ih =>
    by_cases hc : c.key = k
    · rw [List.map_cons, if_pos hc]
      exact List.find?_cons_of_pos _ (by simp)
    · rw [List.map_cons, if_neg hc]
      rw [List.find?_cons_of_neg _ (by simp [hc])]
      apply ih
      rw [List.any_cons] at h
      simpa [hc] using h

lemma getConfig_setConfig_self (repo : Repository) (k v : String) :
    (repo.setConfig k v).getConfig k = some v := by
  unfold Repository.setConfig Repository.getConfig
  by_cases h : repo.configs.any (fun c => c.key == k) = true
  · simp only [if_pos h]
    rw [find?_map_setKey _ _ _ h]
    rfl
  · simp only [if_neg h]
    have hall : ∀ x ∈ repo.configs, ¬x.key = k := by simpa using h
    have hnone : repo.configs.find? (fun c => c.key == k) = none := by
      rw [List.find?_eq_none]
      intro x hx
      simpa using hall x hx
    rw [List.find?_append, hnone]
    simp [List.find?]

/-- C4: given a clone URL whose identity equals some existing remote's URL,
`createRemote` returns that remote's name and mutates nothing; otherwise it
returns a unique remote name built from the clone URL's owner (colliding
with no existing remote), appends a remote at the normalized URL, stamps
the `remote.<name>.github-pr-remote = "true"` marker entry, and leaves the
branches untouched. -/
theorem createRemote_spec (repo : Repository) (cloneUrl : Protocol) :
    ((∃ r ∈ repo.remotes, protocolEquals (protocolOfUrl r.url) cloneUrl = true) →
      (createRemote repo cloneUrl).2.1 = repo ∧
      (createRemote repo cloneUrl).2.2 = [] ∧
      ∃ r ∈ repo.remotes, protocolEquals (protocolOfUrl r.url) cloneUrl = true ∧
        (createRemote repo cloneUrl).1 = r.remoteName) ∧
    ((¬∃ r ∈ repo.remotes, protocolEquals (protocolOfUrl r.url) cloneUrl = true) →
      (createRemote repo cloneUrl).1 = getUniqueRemoteName repo cloneUrl.owner ∧
      (∀ r ∈ repo.remotes, r.remoteName ≠ (createRemote repo cloneUrl).1) ∧
      (createRemote repo cloneUrl).2.1.remotes
        = repo.remotes ++ [⟨(createRemote repo cloneUrl).1, cloneUrl.normalizedUrl,
            some (protocolOfUrl cloneUrl.normalizedUrl)⟩] ∧
      (createRemote repo cloneUrl).2.1.getConfig
          ("remote." ++ (createRemote repo cloneUrl).1 ++ "." ++ PullRequestRemoteMetadataKey)
        = some "true" ∧
      (createRemote repo cloneUrl).2.1.branches = repo.branches) := by
  rcases hfind : repo.remotes.find? (fun remote => protocolEquals (protocolOfUrl remote.url)
      cloneUrl) with _ | r
  · have hcr : createRemote repo cloneUrl
        = (getUniqueRemoteName repo cloneUrl.owner,
           (repo.addRemote (getUniqueRemoteName repo cloneUrl.owner)
             (normalizeUriToString cloneUrl)).setConfig
               ("remote." ++ getUniqueRemoteName repo cloneUrl.owner ++ "."
                 ++ PullRequestRemoteMetadataKey) "true",
           [.addRemoteEv (getUniqueRemoteName repo cloneUrl.owner) (normalizeUriToString cloneUrl),
            .setConfigEv ("remote." ++ getUniqueRemoteName repo cloneUrl.owner ++ "."
              ++ PullRequestRemoteMetadataKey) "true"]) := by
      unfold createRemote
      rw [hfind]
    constructor
    · intro hex
      exfalso
      obtain ⟨r, hr, hp⟩ := hex
      exact (List.find?_eq_none.1 hfind r hr) hp
    · intro _
      refine ⟨by simp only [hcr], ?_, ?_, ?_, ?_⟩
      · simp only [hcr]
        exact getUniqueRemoteName_fresh repo cloneUrl.owner
      · simp only [hcr]
        rw [setConfig_remotes]
        rfl
      · simp only [hcr]
        exact getConfig_setConfig_self _ _ _
      · simp only [hcr]
        rw [setConfig_branches]
        rfl
  · have hcr : createRemote repo cloneUrl = (r.remoteName, repo, []) := by
      unfold createRemote
      rw [hfind]
    constructor
    · intro _
      refine ⟨by simp only [hcr], by simp only [hcr],
        r, List.mem_of_find?_eq_some hfind, by simpa using List.find?_some hfind,
        by simp only [hcr]⟩
    · intro hnex
      exact absurd ⟨r, List.mem_of_find?_eq_some hfind,
        by simpa using List.find?_some hfind⟩ hnex

/-- Repository owning one remote whose URL already carries the fork's clone
identity. -/
def repoR : Repository := ⟨[], [⟨"origin", "https://bb/forker/hello-world", none⟩], [], none⟩

/-- C4 witness: the reuse branch on `repoR` and the creation branch on the
empty repository, both at the fork clone URL of `prA`. -/
theorem createRemote_spec_witness :
    ((createRemote repoR prA.head.repositoryCloneUrl).2.1 = repoR ∧
      (createRemote repoR prA.head.repositoryCloneUrl).2.2 = [] ∧
      ∃ r ∈ repoR.remotes,
        protocolEquals (protocolOfUrl r.url) prA.head.repositoryCloneUrl = true ∧
        (createRemote repoR prA.head.repositoryCloneUrl).1 = r.remoteName) ∧
    (createRemote emptyRepo prA.head.repositoryCloneUrl).2.1.getConfig
        ("remote." ++ (createRemote emptyRepo prA.head.repositoryCloneUrl).1 ++ "."
          ++ PullRequestRemoteMetadataKey)
      = some "true" :=
  ⟨(createRemote_spec repoR prA.head.repositoryCloneUrl).1 (by decide),
   ((createRemote_spec emptyRepo prA.head.repositoryCloneUrl).2 (by decide)).2.2.2.1⟩

lemma fetchAndCreateBranch_eq (repo : Repository) (remote : Remote) (branchName : String)
    (pr : IPullRequestModel) :
    fetchAndCreateBranch repo remote branchName pr =
      match repo.getBranch ("refs/remotes/" ++ remote.remoteName ++ "/" ++ branchName) with
      | some trackedBranch =>
        .ok ((repo.createBranch branchName trackedBranch.commit).setTrackingBranch branchName
              ("refs/remotes/" ++ remote.remoteName ++ "/" ++ branchName),
            [.createBranchEv branchName trackedBranch.commit,
             .setTrackingEv branchName ("refs/remotes/" ++ remote.remoteName ++ "/" ++ branchName)])
      | none => .error ("Could not find branch "
          ++ ("refs/remotes/" ++ remote.remoteName ++ "/" ++ branchName) ++ ".") := rfl

/-- C6: `fetchAndCreateBranch` fails exactly when no branch exists at
`refs/remotes/<remote>/<branchName>`; when the tracked branch is present it
creates the local branch at the tracked branch's commit, sets its tracking
ref to the tracked branch, and its event trace contains no fetch. -/
theorem fetchAndCreateBranch_spec (repo : Repository) (remote : Remote)
    (branchName : String) (pr : IPullRequestModel) :
    ((∃ e, fetchAndCreateBranch repo remote branchName pr = .error e) ↔
      repo.getBranch ("refs/remotes/" ++ remote.remoteName ++ "/" ++ branchName) = none) ∧
    (∀ tb, repo.getBranch ("refs/remotes/" ++ remote.remoteName ++ "/" ++ branchName) = some tb →
      fetchAndCreateBranch repo remote branchName pr
        = .ok ((repo.createBranch branchName tb.commit).setTrackingBranch branchName
              ("refs/remotes/" ++ remote.remoteName ++ "/" ++ branchName),
            [.createBranchEv branchName tb.commit,
             .setTrackingEv branchName
               ("refs/remotes/" ++ remote.remoteName ++ "/" ++ branchName)]) ∧
      ∀ evs repo1, fetchAndCreateBranch repo remote branchName pr = .ok (repo1, evs) →
        ∀ rn ref, GitEvent.fetchEv rn ref ∉ evs) := by
  rw [fetchAndCreateBranch_eq]
  cases hg : repo.getBranch ("refs/remotes/" ++ remote.remoteName ++ "/" ++ branchName) with
  | none =>
    simp only [hg]
    constructor
    · constructor
      · intro _
        trivial
      · intro _
        exact ⟨_, rfl⟩
    · intro tb htb
      cases htb
  | some tb =>
    simp only [hg]
    constructor
    · constructor
      · rintro ⟨e, he⟩
        cases he
      · intro hnone
        cases hnone
    · intro tb' htb'
      injection htb' with h'
      subst h'
      refine ⟨rfl, ?_⟩
      intro evs repo1 hok rn ref
      rw [Except.ok.injEq, Prod.mk.injEq] at hok
      obtain ⟨h1, h2⟩ := hok
      subst h2
      simp

/-- Repository holding the remote-tracking ref `refs/remotes/origin/feature`
at commit `c0`. -/
def repoT : Repository :=
  ⟨[⟨"refs/remotes/origin/feature", "c0", none, none, none⟩], [⟨"origin", "uo", none⟩], [], none⟩

/-- C6 witness: the tracked ref is present in `repoT`, so the local branch
is created at its commit and set to track it. -/
theorem fetchAndCreateBranch_spec_witness :
    fetchAndCreateBranch repoT ⟨"origin", "uo", none⟩ "feature" prA
      = .ok ((repoT.createBranch "feature" "c0").setTrackingBranch "feature"
            "refs/remotes/origin/feature",
          [.createBranchEv "feature" "c0",
           .setTrackingEv "feature" "refs/remotes/origin/feature"]) :=
  ((fetchAndCreateBranch_spec repoT ⟨"origin", "uo", none⟩ "feature" prA).2
    ⟨"refs/remotes/origin/feature", "c0", none, none, none⟩ (by decide)).1

lemma fetch_none (repo : Repository) (rn : String) : repo.fetch rn none = repo := rfl

lemma getBranch_createBranch_self (repo : Repository) (name commit : String)
    (h : repo.getBranch name = none) :
    (repo.createBranch name commit).getBranch name = some ⟨name, commit, none, none, none⟩ := by
  unfold Repository.getBranch Repository.createBranch at *
  rw [List.find?_append, h]
  simp [List.find?]

lemma find?_map_track (l : List Branch) (name up : String) :
    (l.map (fun b => if b.name = name then { b with upstream := some up } else b)).find?
        (fun b => b.name == name)
      = (l.find? (fun b => b.name == name)).map (fun b => { b with upstream := some up }) := by
  induction l with
  | nil => rfl
  | cons c l ih =>
    by_cases hc : c.name = name
    · rw [List.map_cons, if_pos hc,
        List.find?_cons_of_pos _ (by simp [hc]), List.find?_cons_of_pos _ (by simp [hc])]
      rfl
    · rw [List.map_cons, if_neg hc,
        List.find?_cons_of_neg _ (by simp [hc]), List.find?_cons_of_neg _ (by simp [hc]), ih]

lemma getBranch_setTrackingBranch_self (repo : Repository) (name up : String) :
    (repo.setTrackingBranch name up).getBranch name
      = (repo.getBranch name).map (fun b => { b with upstream := some up }) := by
  unfold Repository.setTrackingBranch Repository.getBranch
  exact find?_map_track repo.branches name up

lemma shouldPull_iff (b : Branch) :
    shouldPull b = true ↔ (∃ n, b.behind = some n ∧ 0 < n) ∧ b.ahead = some 0 := by
  unfold shouldPull
  cases hbh : b.behind <;> cases hah : b.ahead <;> simp [hbh, hah]

/-- C7: in `fetchAndCheckout` a `pull` command is run exactly when the
branch read for `branchName` is strictly behind its upstream with zero
local-only commits (`behind > 0` and `ahead = 0`); with the counts unknown
or a fresh created branch no pull is run. -/
theorem fetchAndCheckout_pull_iff (repo : Repository) (remote : Remote) (branchName : String)
    (pr : IPullRequestModel) (r : Repository) (evs : List GitEvent)
    (h : fetchAndCheckout repo remote branchName pr = .ok (r, evs)) :
    GitEvent.runEv ["pull"] ∈ evs ↔
      ∃ b, repo.getBranch branchName = some b ∧
        (∃ n, b.behind = some n ∧ 0 < n) ∧ b.ahead = some 0 := by
  simp only [fetchAndCheckout, fetch_none, associateBranchWithPullRequest] at h
  cases hb : repo.getBranch branchName with
  | some b =>
    simp only [hb] at h
    cases hup : b.upstream with
    | some u =>
      simp only [hup] at h
      by_cases hdp : shouldPull b = true
      · rw [if_pos hdp] at h
        rw [Except.ok.injEq, Prod.mk.injEq] at h
        obtain ⟨h1, h2⟩ := h
        subst h2
        have hrhs := (shouldPull_iff b).1 hdp
        constructor
        · intro _
          exact ⟨b, rfl, hrhs.1, hrhs.2⟩
        · intro _
          simp
      · rw [if_neg hdp] at h
        rw [Except.ok.injEq, Prod.mk.injEq] at h
        obtain ⟨h1, h2⟩ := h
        subst h2
        constructor
        · intro hmem
          exfalso
          simp at hmem
        · rintro ⟨b', hb', hbeh, hah⟩
          exfalso
          injection hb' with hbb
          subst hbb
          exact hdp ((shouldPull_iff _).2 ⟨hbeh, hah⟩)
    | none =>
      simp only [hup] at h
      by_cases hdp : shouldPull b = true
      · rw [if_pos hdp] at h
        rw [Except.ok.injEq, Prod.mk.injEq] at h
        obtain ⟨h1, h2⟩ := h
        subst h2
        have hrhs := (shouldPull_iff b).1 hdp
        constructor
        · intro _
          exact ⟨b, rfl, hrhs.1, hrhs.2⟩
        · intro _
          simp
      · rw [if_neg hdp] at h
        rw [Except.ok.injEq, Prod.mk.injEq] at h
        obtain ⟨h1, h2⟩ := h
        subst h2
        constructor
        · intro hmem
          exfalso
          simp at hmem
        · rintro ⟨b', hb', hbeh, hah⟩
          exfalso
          injection hb' with hbb
          subst hbb
          exact hdp ((shouldPull_iff _).2 ⟨hbeh, hah⟩)
  | none =>
    simp only [hb] at h
    cases hfcb : fetchAndCreateBranch repo remote branchName pr with
    | error e =>
      rw [hfcb] at h
      simp at h
    | ok p =>
      obtain ⟨repo1, ev1⟩ := p
      rw [hfcb] at h
      rw [fetchAndCreateBranch_eq] at hfcb
      cases hg : repo.getBranch ("refs/remotes/" ++ remote.remoteName ++ "/" ++ branchName) with
      | none =>
        rw [hg] at hfcb
        cases hfcb
      | some tb =>
        rw [hg] at hfcb
        rw [Except.ok.injEq, Prod.mk.injEq] at hfcb
        obtain ⟨hrepo1, hev1⟩ := hfcb
        subst hrepo1
        subst hev1
        have hgb : ((repo.createBranch branchName tb.commit).setTrackingBranch branchName
            ("refs/remotes/" ++ remote.remoteName ++ "/" ++ branchName)).getBranch branchName
            = some ⟨branchName, tb.commit,
                some ("refs/remotes/" ++ remote.remoteName ++ "/" ++ branchName), none, none⟩ := by
          rw [getBranch_setTrackingBranch_self, getBranch_createBranch_self repo _ _ hb]
          rfl
        simp only [hgb] at h
        rw [if_neg (by simp [shouldPull])] at h
        rw [Except.ok.injEq, Prod.mk.injEq] at h
        obtain ⟨h1, h2⟩ := h
        subst h2
        constructor
        · intro hmem
          exfalso
          simp at hmem
        · rintro ⟨b', hb', _, _⟩
          exfalso
          cases hb'

/-- Repository whose branch `feature` is two commits behind its upstream
with no local-only commits. -/
def repoP : Repository :=
  ⟨[⟨"feature", "c1", some "refs/remotes/origin/feature", some 0, some 2⟩],
    [⟨"origin", "uo", none⟩], [], none⟩

/-- C7 witness: on `repoP` the pull is run and the pull condition holds. -/
theorem fetchAndCheckout_pull_iff_witness :
    GitEvent.runEv ["pull"]
        ∈ [GitEvent.fetchEv "origin" none, GitEvent.checkoutEv "feature",
           GitEvent.runEv ["pull"],
           GitEvent.setConfigEv "branch.feature.github-pr-owner-number"
             "octocat#hello-world#42"] ↔
      ∃ b, repoP.getBranch "feature" = some b ∧
        (∃ n, b.behind = some n ∧ 0 < n) ∧ b.ahead = some 0 :=
  fetchAndCheckout_pull_iff repoP ⟨"origin", "uo", none⟩ "feature" prA
    ⟨[⟨"feature", "c1", some "refs/remotes/origin/feature", some 0, some 2⟩],
      [⟨"origin", "uo", none⟩],
      [⟨"branch.feature.github-pr-owner-number", "octocat#hello-world#42"⟩],
      some "feature"⟩
    [GitEvent.fetchEv "origin" none, GitEvent.checkoutEv "feature",
     GitEvent.runEv ["pull"],
     GitEvent.setConfigEv "branch.feature.github-pr-owner-number" "octocat#hello-world#42"]
    (by rfl)

/-- C2 (amended): the direct head-remote pair is returned whenever some
known remote's clone identity equals the PR head clone URL, regardless of
any config association; otherwise the result is characterized by the FIRST
entry of the reverse config index only — it is `{remote, branch}` exactly
when the index is non-empty with first entry `branch` and the remote set
contains a remote named by `branch.<branch>.remote`. -/
theorem getBranchForPullRequestFromExistingRemotes_spec (repo : Repository)
    (ghs : List GitHubRepository) (pr : IPullRequestModel) :
    ((∃ g ∈ ghs, remoteMatchesHead pr g = true) →
      ∃ g, g ∈ ghs ∧ remoteMatchesHead pr g = true ∧
        getBranchForPullRequestFromExistingRemotes repo ghs pr
          = some (g.remote, pr.head.ref)) ∧
    ((¬∃ g ∈ ghs, remoteMatchesHead pr g = true) →
      ∀ rm b, getBranchForPullRequestFromExistingRemotes repo ghs pr = some (rm, b) ↔
        (∃ rest, matchingPrBranches repo (buildPullRequestMetadata pr) = b :: rest) ∧
        repo.remotes.find? (fun remote =>
          some remote.remoteName == repo.getConfig ("branch." ++ b ++ ".remote"))
          = some rm) := by
  constructor
  · intro hex
    have hsome : (ghs.find? (remoteMatchesHead pr)).isSome = true := by
      rw [List.find?_isSome]
      obtain ⟨g, hg, hp⟩ := hex
      exact ⟨g, hg, hp⟩
    rcases hfind : ghs.find? (remoteMatchesHead pr) with _ | g0
    · rw [hfind] at hsome
      cases hsome
    · refine ⟨g0, List.mem_of_find?_eq_some hfind, List.find?_some hfind, ?_⟩
      unfold getBranchForPullRequestFromExistingRemotes getHeadRemoteForPullRequest
      rw [hfind]
      rfl
  · intro hnex rm b
    have h0 : ghs.find? (remoteMatchesHead pr) = none := by
      rw [List.find?_eq_none]
      intro g hg hp
      exact hnex ⟨g, hg, hp⟩
    have hnone : getHeadRemoteForPullRequest repo ghs pr = none := by
      unfold getHeadRemoteForPullRequest
      rw [h0]
      rfl
    unfold getBranchForPullRequestFromExistingRemotes
    rw [hnone]
    cases hmb : matchingPrBranches repo (buildPullRequestMetadata pr) with
    | nil =>
      simp only [hmb]
      constructor
      · intro h
        cases h
      · rintro ⟨⟨rest, hcons⟩, _⟩
        cases hcons
    | cons b0 rest0 =>
      simp only [hmb]
      cases hf : repo.remotes.find? (fun remote =>
          some remote.remoteName == repo.getConfig ("branch." ++ b0 ++ ".remote")) with
      | some rm0 =>
        simp only [hf]
        constructor
        · intro h
          injection h with h'
          rw [Prod.mk.injEq] at h'
          obtain ⟨h1, h2⟩ := h'
          subst h1
          subst h2
          exact ⟨⟨rest0, rfl⟩, hf⟩
        · rintro ⟨⟨rest, hcons⟩, hfind2⟩
          injection hcons with hb1 hb2
          subst hb1
          rw [hf] at hfind2
          injection hfind2 with hr
          rw [hr]
      | none =>
        simp only [hf]
        constructor
        · intro h
          cases h
        · rintro ⟨⟨rest, hcons⟩, hfind2⟩
          injection hcons with hb1 hb2
          subst hb1
          rw [hf] at hfind2
          cases hfind2

/-- Repository where two branches are associated with the same PR: the
first one's `branch.b1.remote` names a remote that no longer exists, while
the second one's names the existing `origin`. -/
def repoC : Repository :=
  ⟨[], [⟨"origin", "uo", none⟩],
    [⟨"branch.b1.github-pr-owner-number", "octocat#hello-world#42"⟩,
     ⟨"branch.b1.remote", "gone"⟩,
     ⟨"branch.b2.github-pr-owner-number", "octocat#hello-world#42"⟩,
     ⟨"branch.b2.remote", "origin"⟩], none⟩

/-- C2 counterexample: the claim's "for each branch whose config value
matches, return `{remote, branch}` if that remote exists" fails — branch
`b2` matches and its remote `origin` exists, yet the code returns null
because it only consults the first match `b1`, whose remote is gone. -/
theorem getBranchForPullRequestFromExistingRemotes_counterexample :
    getBranchForPullRequestFromExistingRemotes repoC [] prA = none ∧
    matchingPrBranches repoC (buildPullRequestMetadata prA) = ["b1", "b2"] ∧
    repoC.getConfig "branch.b2.remote" = some "origin" ∧
    (∃ r ∈ repoC.remotes, r.remoteName = "origin") := by
  decide

/-- Known hosted repository whose remote's clone identity equals the head
clone URL of `prA`. -/
def ghsW : List GitHubRepository :=
  [⟨⟨"origin", "uo", some ⟨"forker", "hello-world", "https://bb/forker/hello-world"⟩⟩⟩]

/-- Repository with a single matching association whose remote exists. -/
def repoC2 : Repository :=
  ⟨[], [⟨"origin", "uo", none⟩],
    [⟨"branch.b1.github-pr-owner-number", "octocat#hello-world#42"⟩,
     ⟨"branch.b1.remote", "origin"⟩], none⟩

/-- C2 witness: both branches of the amended statement at concrete inputs. -/
theorem getBranchForPullRequestFromExistingRemotes_spec_witness :
    (∃ g, g ∈ ghsW ∧ remoteMatchesHead prA g = true ∧
      getBranchForPullRequestFromExistingRemotes emptyRepo ghsW prA
        = some (g.remote, prA.head.ref)) ∧
    getBranchForPullRequestFromExistingRemotes repoC2 [] prA
      = some (⟨"origin", "uo", none⟩, "b1") :=
  ⟨(getBranchForPullRequestFromExistingRemotes_spec emptyRepo ghsW prA).1 (by decide),
   ((getBranchForPullRequestFromExistingRemotes_spec repoC2 [] prA).2 (by decide)
      ⟨"origin", "uo", none⟩ "b1").2 ⟨⟨[], by decide⟩, by decide⟩⟩
